import Mathlib

/-!
Shallow embedding of the VaDER hyperparameter-optimization orchestration layer
(files `vader/hp_opt/abstract_optimization_job.py`,
`vader/hp_opt/full_optimization_job.py`, `vader/hp_opt/vader_bayesian_optimizer.py`).

Numeric scalars are modelled as rationals, pandas missing values (NaN) as
`Option`/a dedicated constructor, Python exceptions as `Except String`.
External collaborators (the VADER model, `ClusteringUtils.consensus_clustering`,
the optuna trial suggester, scikit-learn's `KFold` shuffle permutation) are
modelled as explicit function/value parameters.
-/

namespace VaDER

/-- Value stored in one cell of a pandas row (`pd.Series`): a numeric scalar,
a tuple such as the `n_hidden` pair of a hyperparameter configuration, or NaN. -/
inductive PyVal where
  | num (q : ℚ)
  | tup (l : List ℚ)
  | nan
deriving DecidableEq

/-- One pandas row (`pd.Series`/`dict`): an association list from column name to value.
Keys are unique in every row the code builds (Python dict semantics). -/
abbrev Row := List (String × PyVal)

/-- Dictionary lookup in a row: value of the first entry with the given key. -/
def rowGet (r : Row) (c : String) : Option PyVal :=
  (r.find? (fun p => p.1 == c)).map Prod.snd

/-! ### Python decimal rendering of naturals

Models Python `str(n)` for a non-negative `int`, used by the f-string
`f"k{k}_trial{trial.number}"` in `VADERBayesianOptimizer.objective` and by the
`str`/`int` round trip in seed derivation. -/

/-- Character for a single decimal digit (`'0'` for 0, ..., `'9'` for 9). -/
def digitChar (d : ℕ) : Char := Char.ofNat (48 + d)

/-- Python `str(n)` for a natural number `n`, as a list of characters:
most-significant-first decimal digits, with `str(0) = "0"`. -/
def pyStrNat (n : ℕ) : List Char :=
  if n = 0 then ['0'] else (Nat.digits 10 n).reverse.map digitChar

/-- Number of characters of Python `str(i)` for a natural `i`
(`len(str(i))`), used to model `int(str(a) + str(i))` numerically. -/
def pyStrLen (i : ℕ) : ℕ := (pyStrNat i).length

/-- The trial identifier `f"k{k}_trial{trial.number}"` from
`VADERBayesianOptimizer.objective`, as a list of characters. -/
def trialId (k n : ℕ) : List Char :=
  'k' :: (pyStrNat k ++ '_' :: 't' :: 'r' :: 'i' :: 'a' :: 'l' :: pyStrNat n)

/-- Per-trial CSV file name `f"{trial_id}.csv"` written inside the trials
directory by `VADERBayesianOptimizer.objective`. -/
def trialFileName (k n : ℕ) : String :=
  (trialId k n).asString ++ ".csv"

/-! ### Effective cluster count (`FullOptimizationJob._single_clustering`)

`effective_k = len(Counter(vader.cluster(X_train)))`: the number of distinct
labels in the predicted training clustering. -/

/-- Models `len(Counter(labels))`: the number of distinct elements of `labels`. -/
def counterLen (labels : List ℤ) : ℕ := labels.dedup.length

/-- Result tuple of `FullOptimizationJob._single_clustering` (also the shape of
the `_consensus_clustering` result): predicted validation labels, effective
cluster count, and the four scalar losses. -/
structure SingleResult where
  y_pred : List ℤ
  effective_k : ℚ
  train_reconstruction_loss : ℚ
  train_latent_loss : ℚ
  test_reconstruction_loss : ℚ
  test_latent_loss : ℚ
deriving DecidableEq

/-- The observable behaviour of one fitted VADER model (the external `Model`
collaborator) that `_single_clustering` consumes: `vader.cluster(X_train)`,
`vader.cluster(X_val)`, the loss histories (`vader.reconstruction_loss`,
`vader.latent_loss`; the last element is the final-epoch training loss), and
`vader.get_loss(X_val)`. -/
structure FittedVader where
  clusterTrain : List ℤ
  clusterVal : List ℤ
  reconstructionLossHistory : List ℚ
  latentLossHistory : List ℚ
  testReconstructionLoss : ℚ
  testLatentLoss : ℚ

/-- Models `FullOptimizationJob._single_clustering` given the fitted model
returned by `self._fit_vader(X_train, W_train)`. -/
def single_clustering (v : FittedVader) : SingleResult :=
  { y_pred := v.clusterVal
    effective_k := (counterLen v.clusterTrain : ℚ)
    train_reconstruction_loss := v.reconstructionLossHistory.getLastD 0
    train_latent_loss := v.latentLossHistory.getLastD 0
    test_reconstruction_loss := v.testReconstructionLoss
    test_latent_loss := v.testLatentLoss }

/-! ### NumPy truthiness and the weight-splitting line of `AbstractOptimizationJob.run` -/

/-- Total number of scalar elements of a weights tensor, modelled as a list of
per-sample lists of flattened entries (indexing along axis 0 selects samples). -/
def elemCount (ws : List (List ℚ)) : ℕ := (ws.map List.length).sum

/-- Error message numpy raises when an array with more than one element is
used as a boolean. -/
def ambiguousTruthMsg : String :=
  "ValueError: The truth value of an array with more than one element is ambiguous. Use a.any() or a.all()"

/-- Python truthiness of `self.weights` (`None` or a numpy array): `None` is
falsy; an array with more than one element raises `ValueError`; a one-element
array is truthy iff its element is nonzero; an empty array is falsy. -/
def ndarrayTruth (weights : Option (List (List ℚ))) : Except String Bool :=
  match weights with
  | none => .ok false
  | some ws =>
    if 1 < elemCount ws then .error ambiguousTruthMsg
    else .ok (ws.any (fun r => r.any (fun q => q != 0)))

/-- numpy fancy indexing `a[idx]` along axis 0. -/
def idxSelect (xs : List α) (idx : List ℕ) : List α := idx.filterMap (fun i => xs[i]?)

/-- Models line 41 of `AbstractOptimizationJob.run`:
`W_train, W_val = (self.weights[train_index], self.weights[val_index]) if self.weights else None, None`.
Python parses the right-hand side as a pair whose first component is the
conditional expression and whose second component is the literal `None`, so
`W_train` is bound to either the pair of weight splits or `None`, and `W_val`
is bound to `None` unconditionally. -/
def pyWeightsSplit (weights : Option (List (List ℚ))) (tri vali : List ℕ) :
    Except String (Option (List (List ℚ) × List (List ℚ)) × Option (List (List ℚ))) :=
  match ndarrayTruth weights, weights with
  | .error e, _ => .error e
  | .ok true, some ws => .ok (some (idxSelect ws tri, idxSelect ws vali), none)
  | .ok _, _ => .ok (none, none)

/-! ### scikit-learn KFold (external collaborator) -/

/-- Fold sizes of scikit-learn `KFold` over `n` samples and `k` splits: the
first `n % k` folds have `n / k + 1` samples, the rest `n / k`. -/
def kfoldSizes (n k : ℕ) : List ℕ :=
  (List.range k).map (fun i => if i < n % k then n / k + 1 else n / k)

/-- Splits a list into consecutive blocks of the given sizes. -/
def splitBySizes : List ℕ → List α → List (List α)
  | [], _ => []
  | s :: rest, l => l.take s :: splitBySizes rest (l.drop s)

/-- Modelled from scikit-learn (an external collaborator):
`KFold(n_splits=k, shuffle=True, random_state=seed).split(X)` over `n`
samples. `perm` is the permutation of `0..n-1` drawn by the RNG seeded with
the job's seed (deterministic given that seed). The validation sets are the
consecutive blocks of the permuted index list; each train set is the
ascending list of all remaining indices. -/
def kfoldSplit (n k : ℕ) (perm : List ℕ) : List (List ℕ × List ℕ) :=
  (splitBySizes (kfoldSizes n k) perm).map
    (fun val => ((List.range n).filter (fun i => !(val.contains i)), val))

/-! ### pandas DataFrame construction and column means -/

/-- Deduplication keeping the first occurrence of each element, in order. -/
def dedupKeepFirst : List String → List String
  | [] => []
  | c :: l => c :: (dedupKeepFirst l).filter (fun d => d != c)

/-- Column names of `pd.DataFrame(rows)`: the union of the rows' keys, in
order of first appearance. -/
def dfColumns (rows : List Row) : List String :=
  dedupKeepFirst ((rows.map (fun r => r.map Prod.fst)).flatten)

/-- Numeric values present in column `c`, in row order; rows without the key
contribute NaN cells, which pandas `mean` skips. -/
def colValues (rows : List Row) (c : String) : List ℚ :=
  rows.filterMap (fun r =>
    match rowGet r c with
    | some (.num q) => some q
    | _ => none)

/-- pandas `Series.mean()` with its default `skipna=True`: the arithmetic mean
of the present numeric values, NaN (`none`) when there are none. -/
def pdMean (l : List ℚ) : Option ℚ :=
  if l.isEmpty then none else some (l.sum / (l.length : ℚ))

/-- pandas `DataFrame.mean()`: the per-column mean, columns in order of
appearance. -/
def dfMean (rows : List Row) : List (String × Option ℚ) :=
  (dfColumns rows).map (fun c => (c, pdMean (colValues rows c)))

/-! ### `AbstractOptimizationJob.run` -/

/-- The fold loop of `AbstractOptimizationJob.run` (lines 39-43): for each
`(train_index, val_index)` pair, split the data, split the weights by the
conditional line modelled in `pyWeightsSplit`, and call `self._cv_fold_step`.
Returns the fold results together with the list of `W_val` arguments passed
to `_cv_fold_step`. -/
def runFoldLoop
    (foldStep : List D → List D → Option (List (List ℚ) × List (List ℚ)) → Option (List (List ℚ)) → Row)
    (data : List D) (weights : Option (List (List ℚ))) :
    List (List ℕ × List ℕ) → Except String (List Row × List (Option (List (List ℚ))))
  | [] => .ok ([], [])
  | (tri, vali) :: rest =>
    match pyWeightsSplit weights tri vali with
    | .error e => .error e
    | .ok wpair =>
      match runFoldLoop foldStep data weights rest with
      | .error e => .error e
      | .ok rest2 =>
        .ok (foldStep (idxSelect data tri) (idxSelect data vali) wpair.1 wpair.2 :: rest2.1,
          wpair.2 :: rest2.2)

/-- `AbstractOptimizationJob.run`: the seeded K-fold split of the data
(scikit-learn raises if `n_splits < 2` or `n_splits` exceeds the number of
samples), the fold loop, then the reduction of lines 45-48: the per-metric
mean of the fold results appended to the hyperparameter configuration
(`cv_params_series.append(cv_mean_results_series)`). -/
def run (data : List D) (weights : Option (List (List ℚ))) (params : Row)
    (nsplits : ℕ) (perm : List ℕ)
    (foldStep : List D → List D → Option (List (List ℚ) × List (List ℚ)) → Option (List (List ℚ)) → Row) :
    Except String Row :=
  if nsplits < 2 then
    .error "ValueError: k-fold cross-validation requires at least 2 splits"
  else if data.length < nsplits then
    .error "ValueError: Cannot have number of splits greater than the number of samples"
  else
    match runFoldLoop foldStep data weights (kfoldSplit data.length nsplits perm) with
    | .error e => .error e
    | .ok lr =>
      .ok (params ++ (dfMean lr.1).map
        (fun p => (p.1, match p.2 with | some q => PyVal.num q | none => PyVal.nan)))

/-! ### Seed mutation and consensus aggregation (`FullOptimizationJob._consensus_clustering`) -/

/-- Python `int(str(a) + str(i))` for an integer `a` and natural `i`, modelled
numerically: appending the decimal digits of `i` after the digits of `a`
(after the sign, if any) multiplies the magnitude of `a` by
`10 ^ len(str(i))` and adds `i` to it. -/
def pyConcatInt (a : ℤ) (i : ℕ) : ℤ :=
  if 0 ≤ a then a * (10 : ℤ) ^ pyStrLen i + i
  else -((-a) * (10 : ℤ) ^ pyStrLen i + i)

/-- One execution of line 67 of `FullOptimizationJob._consensus_clustering`:
`self.seed = int(str(self.seed) + str(i)) if self.seed else None`. Both
`None` and `0` are falsy in Python, so both map to `None`. -/
def seedUpdate (s : Option ℤ) (i : ℕ) : Option ℤ :=
  match s with
  | none => none
  | some v => if v = 0 then none else some (pyConcatInt v i)

/-- Value of `self.seed` after the first `i` iterations of the
`_consensus_clustering` loop, starting from base seed `s`. -/
def seedAfter (s : Option ℤ) : ℕ → Option ℤ
  | 0 => s
  | i + 1 => seedUpdate (seedAfter s i) i

/-- The seed in effect during repeat `i` of `_consensus_clustering` (the value
`self.seed` is reassigned to at the top of iteration `i`, which the repeat's
`_single_clustering`/`_fit_vader` call then reads). -/
def seedUsed (s : Option ℤ) (i : ℕ) : Option ℤ := seedAfter s (i + 1)

/-- The state folded through the `_consensus_clustering` loop: the mutable
`self.seed` and the per-repeat result list, appended in iteration order.
`single` is the `_single_clustering` call as a function of the repeat index
(hidden model RNG state advances across repeats) and the current seed. -/
def consensusSteps (single : ℕ → Option ℤ → SingleResult) (seed : Option ℤ) (n : ℕ) :
    Option ℤ × List SingleResult :=
  (List.range n).foldl
    (fun st i =>
      let s := seedUpdate st.1 i
      (s, st.2 ++ [single i s]))
    (seed, [])

/-- numpy `np.mean` of a list of scalars (meaningful for nonempty input). -/
def npMean (l : List ℚ) : ℚ := l.sum / (l.length : ℚ)

/-- Python `round(x)` to the nearest integer with ties to even (banker's
rounding), modelled on the exact rational value of `x`. -/
def pyRound (q : ℚ) : ℤ :=
  if q - (⌊q⌋ : ℚ) < 1 / 2 then ⌊q⌋
  else if (1 : ℚ) / 2 < q - (⌊q⌋ : ℚ) then ⌊q⌋ + 1
  else if ⌊q⌋ % 2 = 0 then ⌊q⌋ else ⌊q⌋ + 1

/-- `FullOptimizationJob._consensus_clustering`: runs `_single_clustering`
`n_consensus` times (reassigning `self.seed` each iteration), then reduces:
arithmetic mean for `effective_k` and the four losses, and
`ClusteringUtils.consensus_clustering(y_pred_repeats, round(float(effective_k)))`
for the label vector. `consensus` is the external
`ClusteringUtils.consensus_clustering` collaborator. -/
def consensus_clustering (single : ℕ → Option ℤ → SingleResult)
    (consensus : List (List ℤ) → ℤ → List ℤ) (seed : Option ℤ) (n : ℕ) : SingleResult :=
  let results := (consensusSteps single seed n).2
  let effK := npMean (results.map (·.effective_k))
  { y_pred := consensus (results.map (·.y_pred)) (pyRound effK)
    effective_k := effK
    train_reconstruction_loss := npMean (results.map (·.train_reconstruction_loss))
    train_latent_loss := npMean (results.map (·.train_latent_loss))
    test_reconstruction_loss := npMean (results.map (·.test_reconstruction_loss))
    test_latent_loss := npMean (results.map (·.test_latent_loss)) }

/-! ### `VADERBayesianOptimizer`: failure containment, objective, repeat files -/

/-- One optimization job as seen by `run_cv_single_job`: the fresh unique id
`job.cv_id` and the outcome of `job.run()` — a result row, or an exception
carrying the traceback text produced by `traceback.format_exc()`. -/
structure JobSpec where
  jobId : String
  outcome : Except String Row

/-- Whether the job invocation raised an exception. -/
def JobSpec.failed (j : JobSpec) : Bool :=
  match j.outcome with
  | .ok _ => false
  | .error _ => true

/-- The error text written to the failure log by `run_cv_single_job`: the
phrase naming the failed job id and parameters, a newline, then the full
traceback. -/
def failMessage (jobId : String) (paramsRepr : String) (trace : String) : String :=
  "Job failed: " ++ jobId ++ " and job_params_dict=" ++ paramsRepr ++ "\n" ++ trace

/-- `VADERBayesianOptimizer.run_cv_single_job`: runs one `FullOptimizationJob`;
on success returns the job's result row and writes nothing; on exception
writes one log file, named by the job's unique id, into the failed-jobs
directory, and returns `pd.Series(params_dict)` — a placeholder row holding
only the hyperparameter configuration. Result: the returned row paired with
the list of (name, content) files written to the failed-jobs directory. -/
def run_cv_single_job (params : Row) (paramsRepr : String) (j : JobSpec) :
    Row × List (String × String) :=
  match j.outcome with
  | .ok r => (r, [])
  | .error trace => (params, [(j.jobId ++ ".log", failMessage j.jobId paramsRepr trace)])

/-- The repeat loop of `VADERBayesianOptimizer.objective` (lines 181-185):
runs `n_repeats` job invocations in order, collecting every repeat's result
row (all of which are then written to the per-trial CSV) and every
failure-log file written along the way. -/
def objectiveRepeats (params : Row) (paramsRepr : String) (jobs : List JobSpec) :
    List Row × List (String × String) :=
  (jobs.map (fun j => (run_cv_single_job params paramsRepr j).1),
   (jobs.map (fun j => (run_cv_single_job params paramsRepr j).2)).flatten)

/-- The trial objective value of line 188 of `VADERBayesianOptimizer.objective`:
the mean of the `prediction_strength_diff` column of the assembled repeat
results if that column exists, else Python `None`. The outer `Option` is
`None`-versus-value; the inner `Option` is pandas NaN (mean of a column with
no numeric entries) versus a number. -/
def objectiveScore (rows : List Row) : Option (Option ℚ) :=
  if (dfColumns rows).contains "prediction_strength_diff" then
    some (pdMean (colValues rows "prediction_strength_diff"))
  else none

/-- Python `list(range(start, stop, step))` for a positive step. -/
def pyRange (start stop step : ℕ) : List ℕ :=
  List.range' start ((stop - start + step - 1) / step) step

/-- The regrouping step of
`VADERBayesianOptimizer.__gen_repeats_files_from_trials_files`, after all
trial CSVs have been concatenated into `df`: for each repeat index `i`, the
rows of `df` at positions `range(i, len(df), n_repeats)` are written to the
file `repeat_i.csv`. Result: the list of the `n_repeats` files' row lists. -/
def gen_repeats_files (rows : List Row) (nRepeats : ℕ) : List (List Row) :=
  (List.range nRepeats).map
    (fun i => (pyRange i rows.length nRepeats).filterMap (fun j => rows[j]?))

/-! ### Claim-side characterizations used by theorem statements -/

/-- The closed-form derived seed of consensus repeat `i` for a base seed `b`:
Python digit-concatenation of `0`, `1`, ..., `i` after `b`, in turn. This is a
pure function of the base seed and the repeat index alone. -/
def consensusSeedFormula (b : ℤ) : ℕ → ℤ
  | 0 => pyConcatInt b 0
  | i + 1 => pyConcatInt (consensusSeedFormula b i) (i + 1)

/-- The per-repeat `_single_clustering` results of a consensus run, indexed by
repeat number: repeat `i` runs under the seed `seedUsed s i`. -/
def consensusRepeats (single : ℕ → Option ℤ → SingleResult) (s : Option ℤ) (n : ℕ) :
    List SingleResult :=
  (List.range n).map (fun i => single i (seedUsed s i))

/-- The traceback text carried by a failed job (empty for a successful one). -/
def JobSpec.trace (j : JobSpec) : String :=
  match j.outcome with
  | .ok _ => ""
  | .error t => t

/-! ## Theorems -/

/-! ### Helper lemmas on Python decimal strings -/

theorem digitChar_inj_lt :
    ∀ d1, d1 < 10 → ∀ d2, d2 < 10 → digitChar d1 = digitChar d2 → d1 = d2 := by
  decide

theorem digitChar_ne_underscore : ∀ d, d < 10 → digitChar d ≠ '_' := by
  decide

theorem pyStrNat_no_underscore (n : ℕ) : ∀ c ∈ pyStrNat n, c ≠ '_' := by
  intro c hc
  unfold pyStrNat at hc
  by_cases h : n = 0
  · rw [if_pos h, List.mem_singleton] at hc
    subst hc; decide
  · rw [if_neg h, List.mem_map] at hc
    obtain ⟨d, hd, rfl⟩ := hc
    exact digitChar_ne_underscore d
      (Nat.digits_lt_base (by norm_num) (List.mem_reverse.mp hd))

theorem map_digitChar_inj :
    ∀ l1 l2 : List ℕ, (∀ d ∈ l1, d < 10) → (∀ d ∈ l2, d < 10) →
      l1.map digitChar = l2.map digitChar → l1 = l2 := by
  intro l1
  induction l1 with
  | nil => intro l2 _ _ h; cases l2 <;> simp_all
  | cons a t ih =>
    intro l2 h1 h2 h
    cases l2 with
    | nil => simp_all
    | cons b s =>
      simp only [List.map_cons, List.cons.injEq] at h
      have ha : a = b :=
        digitChar_inj_lt a (h1 a (by simp)) b (h2 b (by simp)) h.1
      have ht : t = s :=
        ih s (fun d hd => h1 d (by simp [hd])) (fun d hd => h2 d (by simp [hd])) h.2
      simp [ha, ht]

theorem pyStrNat_nonzero_ne_strzero (j : ℕ) (hj : j ≠ 0) :
    (Nat.digits 10 j).reverse.map digitChar ≠ ['0'] := by
  intro habs
  have hlen : ((Nat.digits 10 j).reverse.map digitChar).length = 1 := by
    rw [habs]; rfl
  rw [List.length_map, List.length_reverse] at hlen
  obtain ⟨d, hd⟩ := List.length_eq_one.mp hlen
  have hdmem : d ∈ Nat.digits 10 j := by rw [hd]; simp
  have hd10 : d < 10 := Nat.digits_lt_base (by norm_num) hdmem
  rw [hd] at habs
  simp only [List.reverse_singleton, List.map_cons, List.map_nil,
    List.cons.injEq, and_true] at habs
  have hd0 : d = 0 := digitChar_inj_lt d hd10 0 (by norm_num) habs
  have hof := Nat.ofDigits_digits 10 j
  rw [hd, hd0] at hof
  simp [Nat.ofDigits] at hof
  exact hj hof.symm

theorem pyStrNat_inj (n m : ℕ) (h : pyStrNat n = pyStrNat m) : n = m := by
  unfold pyStrNat at h
  by_cases hn : n = 0 <;> by_cases hm : m = 0
  · omega
  · rw [if_pos hn, if_neg hm] at h
    exact absurd h.symm (pyStrNat_nonzero_ne_strzero m hm)
  · rw [if_neg hn, if_pos hm] at h
    exact absurd h (pyStrNat_nonzero_ne_strzero n hn)
  · rw [if_neg hn, if_neg hm] at h
    have hrev : (Nat.digits 10 n).reverse = (Nat.digits 10 m).reverse :=
      map_digitChar_inj _ _
        (fun d hd => Nat.digits_lt_base (by norm_num) (List.mem_reverse.mp hd))
        (fun d hd => Nat.digits_lt_base (by norm_num) (List.mem_reverse.mp hd)) h
    exact Nat.digits.injective 10 (List.reverse_injective hrev)

theorem append_sep_inj {α : Type} (sep : α) :
    ∀ a1 a2 b1 b2 : List α, (∀ c ∈ a1, c ≠ sep) → (∀ c ∈ a2, c ≠ sep) →
      a1 ++ sep :: b1 = a2 ++ sep :: b2 → a1 = a2 ∧ b1 = b2 := by
  intro a1
  induction a1 with
  | nil =>
    intro a2 b1 b2 _ h2 h
    cases a2 with
    | nil => simpa using h
    | cons y s =>
      exfalso
      simp only [List.nil_append, List.cons_append, List.cons.injEq] at h
      exact h2 y (by simp) h.1.symm
  | cons x t ih =>
    intro a2 b1 b2 h1 h2 h
    cases a2 with
    | nil =>
      exfalso
      simp only [List.nil_append, List.cons_append, List.cons.injEq] at h
      exact h1 x (by simp) h.1
    | cons y s =>
      simp only [List.cons_append, List.cons.injEq] at h
      have := ih s b1 b2 (fun c hc => h1 c (by simp [hc]))
        (fun c hc => h2 c (by simp [hc])) h.2
      simp [h.1, this.1, this.2]

/-- C10: the trial-id mapping (candidate-K, trial-number) to the string
`k{k}_trial{number}` is injective over non-negative integers, so the per-trial
file paths derived from two distinct (K, trial-number) pairs are distinct and
no two trials ever target the same per-trial file. -/
theorem trial_file_paths_injective (k1 n1 k2 n2 : ℕ)
    (h : trialFileName k1 n1 = trialFileName k2 n2) : k1 = k2 ∧ n1 = n2 := by
  have hdata : (trialId k1 n1 ++ ".csv".data) = (trialId k2 n2 ++ ".csv".data) := by
    have := congrArg String.data h
    simpa [trialFileName, List.asString, String.data] using this
  have hid : trialId k1 n1 = trialId k2 n2 := List.append_cancel_right hdata
  unfold trialId at hid
  simp only [List.cons.injEq, true_and] at hid
  have hsplit := append_sep_inj '_' (pyStrNat k1) (pyStrNat k2)
    ('t' :: 'r' :: 'i' :: 'a' :: 'l' :: pyStrNat n1)
    ('t' :: 'r' :: 'i' :: 'a' :: 'l' :: pyStrNat n2)
    (pyStrNat_no_underscore k1) (pyStrNat_no_underscore k2) hid
  have hk := pyStrNat_inj k1 k2 hsplit.1
  have hrest := hsplit.2
  simp only [List.cons.injEq, true_and] at hrest
  exact ⟨hk, pyStrNat_inj n1 n2 hrest⟩

/-- Witness for C10 at the concrete pair (2, 13). -/
theorem trial_file_paths_injective_witness :
    trialFileName 2 13 = trialFileName 2 13 ∧ (2 = 2 ∧ 13 = 13) :=
  ⟨rfl, trial_file_paths_injective 2 13 2 13 rfl⟩

/-- C9: in `FullOptimizationJob._single_clustering`, when the training fold is
non-empty (so the model's predicted training labels form a non-empty vector)
and the fitted model's cluster operation assigns each sample one of the at
most K configured cluster ids 0..K-1, the reported `effective_k` equals the
number of distinct labels actually produced, is at least 1, and never exceeds
the configured K. -/
theorem single_clustering_effective_k (v : FittedVader) (K : ℕ)
    (hne : v.clusterTrain ≠ [])
    (hlab : ∀ l ∈ v.clusterTrain, 0 ≤ l ∧ l < (K : ℤ)) :
    (single_clustering v).effective_k = (v.clusterTrain.toFinset.card : ℚ) ∧
    1 ≤ (single_clustering v).effective_k ∧
    (single_clustering v).effective_k ≤ (K : ℚ) := by
  have hcard : counterLen v.clusterTrain = v.clusterTrain.toFinset.card := by
    rw [List.card_toFinset]; rfl
  refine ⟨by simp [single_clustering, hcard], ?_, ?_⟩
  · have h1 : 1 ≤ counterLen v.clusterTrain := by
      unfold counterLen
      have : v.clusterTrain.dedup ≠ [] := by
        simpa [List.dedup_eq_nil] using hne
      cases hd : v.clusterTrain.dedup with
      | nil => exact absurd hd this
      | cons a t => simp [hd]
    calc (1 : ℚ) ≤ (counterLen v.clusterTrain : ℚ) := by exact_mod_cast h1
    _ = (single_clustering v).effective_k := rfl
  · have hK : counterLen v.clusterTrain ≤ K := by
      rw [hcard]
      have hsub : v.clusterTrain.toFinset ⊆ Finset.Ico (0 : ℤ) (K : ℤ) := by
        intro x hx
        rw [List.mem_toFinset] at hx
        rw [Finset.mem_Ico]
        exact hlab x hx
      calc v.clusterTrain.toFinset.card ≤ (Finset.Ico (0 : ℤ) (K : ℤ)).card :=
        Finset.card_le_card hsub
      _ = K := by rw [Int.card_Ico]; simp
    calc (single_clustering v).effective_k
        = (counterLen v.clusterTrain : ℚ) := rfl
    _ ≤ (K : ℚ) := by exact_mod_cast hK

/-- Witness for C9: labels [0, 1, 1] with configured K = 2 give
effective_k = 2. -/
theorem single_clustering_effective_k_witness :
    (([0, 1, 1] : List ℤ) ≠ [] ∧ (∀ l ∈ ([0, 1, 1] : List ℤ), 0 ≤ l ∧ l < ((2 : ℕ) : ℤ))) ∧
    ((single_clustering ⟨[0, 1, 1], [0], [], [], 0, 0⟩).effective_k =
        ((([0, 1, 1] : List ℤ).toFinset.card : ℚ)) ∧
      1 ≤ (single_clustering ⟨[0, 1, 1], [0], [], [], 0, 0⟩).effective_k ∧
      (single_clustering ⟨[0, 1, 1], [0], [], [], 0, 0⟩).effective_k ≤ ((2 : ℕ) : ℚ)) :=
  ⟨⟨by decide, by decide⟩,
    single_clustering_effective_k ⟨[0, 1, 1], [0], [], [], 0, 0⟩ 2 (by decide) (by decide)⟩

/-! ### Consensus seed derivation (C2) and consensus reduction (C6) -/

theorem pyConcatInt_ne_zero (a : ℤ) (ha : a ≠ 0) (i : ℕ) : pyConcatInt a i ≠ 0 := by
  unfold pyConcatInt
  have hp : (0 : ℤ) < 10 ^ pyStrLen i := pow_pos (by norm_num) _
  have hi : (0 : ℤ) ≤ (i : ℤ) := Int.natCast_nonneg i
  by_cases h : 0 ≤ a
  · rw [if_pos h]
    have h2 : (10 : ℤ) ^ pyStrLen i ≤ a * 10 ^ pyStrLen i :=
      le_mul_of_one_le_left (le_of_lt hp) (by omega)
    omega
  · rw [if_neg h]
    have h2 : (10 : ℤ) ^ pyStrLen i ≤ (-a) * 10 ^ pyStrLen i :=
      le_mul_of_one_le_left (le_of_lt hp) (by omega)
    omega

theorem consensusSeedFormula_ne_zero (b : ℤ) (hb : b ≠ 0) :
    ∀ i, consensusSeedFormula b i ≠ 0
  | 0 => pyConcatInt_ne_zero b hb 0
  | i + 1 => pyConcatInt_ne_zero _ (consensusSeedFormula_ne_zero b hb i) (i + 1)

theorem seedUsed_some_eq (b : ℤ) (hb : b ≠ 0) (i : ℕ) :
    seedUsed (some b) i = some (consensusSeedFormula b i) := by
  induction i with
  | zero => simp [seedUsed, seedAfter, seedUpdate, hb, consensusSeedFormula]
  | succ i ih =>
    have hstep : seedUsed (some b) (i + 1) = seedUpdate (seedUsed (some b) i) (i + 1) := rfl
    rw [hstep, ih]
    simp [seedUpdate, consensusSeedFormula_ne_zero b hb i, consensusSeedFormula]

theorem seedUsed_none_eq (i : ℕ) : seedUsed none i = none := by
  induction i with
  | zero => rfl
  | succ i ih =>
    have hstep : seedUsed none (i + 1) = seedUpdate (seedUsed none i) (i + 1) := rfl
    rw [hstep, ih]; rfl

theorem seedUsed_somezero_eq (i : ℕ) : seedUsed (some 0) i = none := by
  induction i with
  | zero => rfl
  | succ i ih =>
    have hstep : seedUsed (some 0) (i + 1) = seedUpdate (seedUsed (some 0) i) (i + 1) := rfl
    rw [hstep, ih]; rfl

/-- C2 counterexample: the base seed 0 is set (non-null as a Python
`Optional[int]`), yet repeat 0 of the consensus loop runs with seed `None` —
the truthiness test `if self.seed` treats 0 like null, so no derived seed is
used and the repeat is not reproducible from the base seed. -/
theorem consensus_seed_zero_counterexample : seedUsed (some 0) 0 = none := rfl

/-- C2 (amended): for every consensus repeat `i`, if the base seed is non-null
and nonzero, the seed used by repeat `i` equals a value derived
deterministically from the base seed and `i` alone (the digit-concatenation
closed form `consensusSeedFormula`); if the base seed is null — or zero,
which Python truthiness treats like null — every repeat runs with seed
`None`, i.e. independent nondeterministic model randomness with no derived
seed. -/
theorem consensus_seed_derivation (b : ℤ) (i : ℕ) (hb : b ≠ 0) :
    seedUsed (some b) i = some (consensusSeedFormula b i) ∧
    seedUsed none i = none ∧
    seedUsed (some 0) i = none :=
  ⟨seedUsed_some_eq b hb i, seedUsed_none_eq i, seedUsed_somezero_eq i⟩

/-- Witness for C2 at base seed 7, repeat 2. -/
theorem consensus_seed_derivation_witness :
    (7 : ℤ) ≠ 0 ∧
    (seedUsed (some 7) 2 = some (consensusSeedFormula 7 2) ∧
      seedUsed none 2 = none ∧
      seedUsed (some 0) 2 = none) :=
  ⟨by norm_num, consensus_seed_derivation 7 2 (by norm_num)⟩

theorem consensusSteps_eq (single : ℕ → Option ℤ → SingleResult) (s : Option ℤ) :
    ∀ n, consensusSteps single s n =
      (seedAfter s n, (List.range n).map (fun i => single i (seedUsed s i))) := by
  intro n
  induction n with
  | zero => rfl
  | succ n ih =>
    have h1 : consensusSteps single s (n + 1) =
        (seedUpdate (consensusSteps single s n).1 n,
          (consensusSteps single s n).2 ++
            [single n (seedUpdate (consensusSteps single s n).1 n)]) := by
      unfold consensusSteps
      rw [List.range_succ, List.foldl_append]
      rfl
    rw [h1, ih]
    simp only [List.range_succ, List.map_append, List.map_cons, List.map_nil]
    rfl

/-- C6: for a consensus run over `n_consensus = n > 1` repeats,
`_consensus_clustering` returns the effective-K and every scalar loss as the
arithmetic mean of the corresponding per-repeat values, and the label vector
as `consensus_clustering` applied to the per-repeat label vectors with
`target_k = round(mean effective-K)`; the returned value is a `SingleResult`,
the same tuple shape as a single `_single_clustering` call. -/
theorem consensus_clustering_reduces (single : ℕ → Option ℤ → SingleResult)
    (consensus : List (List ℤ) → ℤ → List ℤ) (s : Option ℤ) (n : ℕ) (_hn : 1 < n) :
    consensus_clustering single consensus s n =
      { y_pred := consensus ((consensusRepeats single s n).map (·.y_pred))
          (pyRound (npMean ((consensusRepeats single s n).map (·.effective_k))))
        effective_k := npMean ((consensusRepeats single s n).map (·.effective_k))
        train_reconstruction_loss :=
          npMean ((consensusRepeats single s n).map (·.train_reconstruction_loss))
        train_latent_loss :=
          npMean ((consensusRepeats single s n).map (·.train_latent_loss))
        test_reconstruction_loss :=
          npMean ((consensusRepeats single s n).map (·.test_reconstruction_loss))
        test_latent_loss :=
          npMean ((consensusRepeats single s n).map (·.test_latent_loss)) } := by
  unfold consensus_clustering consensusRepeats
  rw [consensusSteps_eq]

/-- Witness for C6: two repeats from base seed 7, with a concrete model stub
and a concrete consensus function. -/
theorem consensus_clustering_reduces_witness :
    1 < 2 ∧
    consensus_clustering (fun i s => ⟨[1], (if s = none then (i : ℚ) else 1 : ℚ), 2, 3, 4, 5⟩)
        (fun ls k => List.replicate ls.length k) (some 7) 2 =
      { y_pred := (fun (ls : List (List ℤ)) (k : ℤ) => List.replicate ls.length k)
          ((consensusRepeats (fun i s => ⟨[1], (if s = none then (i : ℚ) else 1 : ℚ), 2, 3, 4, 5⟩)
              (some 7) 2).map (·.y_pred))
          (pyRound (npMean ((consensusRepeats
              (fun i s => ⟨[1], (if s = none then (i : ℚ) else 1 : ℚ), 2, 3, 4, 5⟩)
              (some 7) 2).map (·.effective_k))))
        effective_k := npMean ((consensusRepeats
            (fun i s => ⟨[1], (if s = none then (i : ℚ) else 1 : ℚ), 2, 3, 4, 5⟩)
            (some 7) 2).map (·.effective_k))
        train_reconstruction_loss := npMean ((consensusRepeats
            (fun i s => ⟨[1], (if s = none then (i : ℚ) else 1 : ℚ), 2, 3, 4, 5⟩)
            (some 7) 2).map (·.train_reconstruction_loss))
        train_latent_loss := npMean ((consensusRepeats
            (fun i s => ⟨[1], (if s = none then (i : ℚ) else 1 : ℚ), 2, 3, 4, 5⟩)
            (some 7) 2).map (·.train_latent_loss))
        test_reconstruction_loss := npMean ((consensusRepeats
            (fun i s => ⟨[1], (if s = none then (i : ℚ) else 1 : ℚ), 2, 3, 4, 5⟩)
            (some 7) 2).map (·.test_reconstruction_loss))
        test_latent_loss := npMean ((consensusRepeats
            (fun i s => ⟨[1], (if s = none then (i : ℚ) else 1 : ℚ), 2, 3, 4, 5⟩)
            (some 7) 2).map (·.test_latent_loss)) } :=
  ⟨by norm_num,
    consensus_clustering_reduces
      (fun i s => ⟨[1], (if s = none then (i : ℚ) else 1 : ℚ), 2, 3, 4, 5⟩)
      (fun ls k => List.replicate ls.length k) (some 7) 2 (by norm_num)⟩

/-! ### Objective value and failure containment (C3, C4) -/

theorem mem_dedupKeepFirst (c : String) : ∀ l, c ∈ dedupKeepFirst l ↔ c ∈ l := by
  intro l
  induction l with
  | nil => simp [dedupKeepFirst]
  | cons a t ih =>
    simp only [dedupKeepFirst, List.mem_cons, List.mem_filter, bne_iff_ne, ne_eq]
    constructor
    · rintro (h | ⟨h1, _⟩)
      · exact Or.inl h
      · exact Or.inr (ih.mp h1)
    · rintro (h | h)
      · exact Or.inl h
      · by_cases hc : c = a
        · exact Or.inl hc
        · exact Or.inr ⟨ih.mpr h, hc⟩

theorem mem_dfColumns (rows : List Row) (c : String) :
    c ∈ dfColumns rows ↔ ∃ r ∈ rows, ∃ p ∈ r, p.1 = c := by
  unfold dfColumns
  rw [mem_dedupKeepFirst]
  simp only [List.mem_flatten, List.mem_map]
  constructor
  · rintro ⟨l, ⟨r, hr, rfl⟩, hc⟩
    obtain ⟨p, hp, hpc⟩ := List.mem_map.mp hc
    exact ⟨r, hr, p, hp, hpc⟩
  · rintro ⟨r, hr, p, hp, hpc⟩
    exact ⟨r.map Prod.fst, ⟨r, hr, rfl⟩, List.mem_map.mpr ⟨p, hp, hpc⟩⟩

theorem rowGet_eq_none_iff (r : Row) (c : String) :
    rowGet r c = none ↔ ∀ p ∈ r, p.1 ≠ c := by
  unfold rowGet
  simp [List.find?_eq_none]

theorem rowGet_some_mem (r : Row) (c : String) (v : PyVal)
    (h : rowGet r c = some v) : ∃ p ∈ r, p.1 = c := by
  unfold rowGet at h
  cases hf : r.find? (fun p => p.1 == c) with
  | none => rw [hf] at h; simp at h
  | some p =>
    have hp := List.mem_of_find?_eq_some hf
    have hpc := List.find?_some hf
    exact ⟨p, hp, by simpa using hpc⟩

theorem colValues_all_present (c : String) (f : Row → ℚ) :
    ∀ rows : List Row, (∀ r ∈ rows, rowGet r c = some (.num (f r))) →
      colValues rows c = rows.map f := by
  intro rows
  induction rows with
  | nil => intro _; rfl
  | cons r t ih =>
    intro h
    unfold colValues
    rw [List.filterMap_cons, h r (by simp)]
    have ht := ih (fun r hr => h r (by simp [hr]))
    unfold colValues at ht
    rw [ht, List.map_cons]

/-- C3: the objective value returned to the trial suggester by
`VADERBayesianOptimizer.objective` equals the arithmetic mean of the
`prediction_strength_diff` scoring column over the trial's repeat result rows
when that column is present (here: present in every one of the `rows1`), and
is Python `None` — not zero, and with no exception raised (`objectiveScore`
is a total function) — when the scoring column is absent from the assembled
repeat results `rows2`. -/
theorem objective_score_spec (rows1 rows2 : List Row) (f : Row → ℚ)
    (h1 : rows1 ≠ [])
    (hall : ∀ r ∈ rows1, rowGet r "prediction_strength_diff" = some (.num (f r)))
    (habs : ∀ r ∈ rows2, rowGet r "prediction_strength_diff" = none) :
    objectiveScore rows1 = some (some ((rows1.map f).sum / (rows1.length : ℚ))) ∧
    objectiveScore rows2 = none := by
  constructor
  · unfold objectiveScore
    have hmem : "prediction_strength_diff" ∈ dfColumns rows1 := by
      rw [mem_dfColumns]
      cases rows1 with
      | nil => exact absurd rfl h1
      | cons r t =>
        obtain ⟨p, hp, hpc⟩ := rowGet_some_mem r _ _ (hall r (by simp))
        exact ⟨r, by simp, p, hp, hpc⟩
    rw [if_pos (by simpa using hmem)]
    rw [colValues_all_present _ f rows1 hall]
    unfold pdMean
    have hne : (rows1.map f).isEmpty = false := by
      cases rows1 with
      | nil => exact absurd rfl h1
      | cons r t => rfl
    rw [hne]
    simp
  · unfold objectiveScore
    have hmem : "prediction_strength_diff" ∉ dfColumns rows2 := by
      rw [mem_dfColumns]
      rintro ⟨r, hr, p, hp, hpc⟩
      exact (rowGet_eq_none_iff r _).mp (habs r hr) p hp hpc
    rw [if_neg (by simpa using hmem)]

/-- Witness for C3: two present rows with values 3 and 5 give objective 4;
a config-only row with no scoring column gives objective None. -/
theorem objective_score_spec_witness :
    objectiveScore [[("prediction_strength_diff", PyVal.num 4)],
        [("prediction_strength_diff", PyVal.num 4), ("k", PyVal.num 2)]] = some (some 4) ∧
    objectiveScore [[("k", PyVal.num 2)]] = none := by
  have h := objective_score_spec
    [[("prediction_strength_diff", PyVal.num 4)],
      [("prediction_strength_diff", PyVal.num 4), ("k", PyVal.num 2)]]
    [[("k", PyVal.num 2)]]
    (fun _ => 4)
    (by decide) (by decide) (by decide)
  refine ⟨h.1.trans ?_, h.2⟩
  norm_num [List.map_cons, List.map_nil, List.sum_cons, List.sum_nil]

theorem run_files_flatten (params : Row) (pr : String) :
    ∀ jobs : List JobSpec,
      (jobs.map (fun j => (run_cv_single_job params pr j).2)).flatten =
        (jobs.filter JobSpec.failed).map
          (fun j => (j.jobId ++ ".log", failMessage j.jobId pr j.trace)) := by
  intro jobs
  induction jobs with
  | nil => rfl
  | cons j t ih =>
    rw [List.map_cons, List.flatten_cons, ih, List.filter_cons]
    cases houtcome : j.outcome with
    | ok r =>
      have hfail : JobSpec.failed j = false := by simp [JobSpec.failed, houtcome]
      rw [hfail]
      simp [run_cv_single_job, houtcome]
    | error tr =>
      have hfail : JobSpec.failed j = true := by simp [JobSpec.failed, houtcome]
      rw [hfail]
      simp [run_cv_single_job, houtcome, JobSpec.trace]

theorem objectiveRepeats_files (params : Row) (pr : String) (jobs : List JobSpec) :
    (objectiveRepeats params pr jobs).2 =
      (jobs.filter JobSpec.failed).map
        (fun j => (j.jobId ++ ".log", failMessage j.jobId pr j.trace)) :=
  run_files_flatten params pr jobs

/-- C4: in a trial of `n_repeats` wrapped job invocations, some of which
raise: every failing invocation writes exactly one failure-log file named by
that job's unique id (containing the full error trace), contributes the
placeholder row `pd.Series(params_dict)` holding only the hyperparameter
configuration, and the collected row list — which `objective` then writes to
the per-trial file — still holds exactly `n_repeats` rows; the loop is a
total function, so the sweep continues past the failure. -/
theorem failure_containment (params : Row) (pr : String) (jobs : List JobSpec)
    (i : ℕ) (hi : i < jobs.length) (hfail : jobs[i].failed = true) :
    ((objectiveRepeats params pr jobs).1).length = jobs.length ∧
    (objectiveRepeats params pr jobs).2 =
      (jobs.filter JobSpec.failed).map
        (fun j => (j.jobId ++ ".log", failMessage j.jobId pr j.trace)) ∧
    ((objectiveRepeats params pr jobs).1)[i]? = some params := by
  refine ⟨by simp [objectiveRepeats], objectiveRepeats_files params pr jobs, ?_⟩
  unfold objectiveRepeats
  rw [List.getElem?_map, List.getElem?_eq_getElem hi]
  cases houtcome : (jobs[i]).outcome with
  | ok r =>
    exfalso
    rw [JobSpec.failed, houtcome] at hfail
    simp at hfail
  | error tr =>
    simp [run_cv_single_job, houtcome]

/-- Witness for C4: three repeats, the second of which raises; the trial row
list has 3 rows (2 real + 1 placeholder) and exactly one failure-log file. -/
theorem failure_containment_witness :
    (1 < ([⟨"id0", .ok [("m", PyVal.num 1)]⟩, ⟨"id1", .error "boom"⟩,
        ⟨"id2", .ok [("m", PyVal.num 2)]⟩] : List JobSpec).length ∧
      ([⟨"id0", .ok [("m", PyVal.num 1)]⟩, ⟨"id1", .error "boom"⟩,
        ⟨"id2", .ok [("m", PyVal.num 2)]⟩] : List JobSpec)[1].failed = true) ∧
    (((objectiveRepeats [("k", PyVal.num 2)] "pd"
        [⟨"id0", .ok [("m", PyVal.num 1)]⟩, ⟨"id1", .error "boom"⟩,
          ⟨"id2", .ok [("m", PyVal.num 2)]⟩]).1).length = 3 ∧
      (objectiveRepeats [("k", PyVal.num 2)] "pd"
        [⟨"id0", .ok [("m", PyVal.num 1)]⟩, ⟨"id1", .error "boom"⟩,
          ⟨"id2", .ok [("m", PyVal.num 2)]⟩]).2 =
        (([⟨"id0", .ok [("m", PyVal.num 1)]⟩, ⟨"id1", .error "boom"⟩,
          ⟨"id2", .ok [("m", PyVal.num 2)]⟩] : List JobSpec).filter JobSpec.failed).map
          (fun j => (j.jobId ++ ".log", failMessage j.jobId "pd" j.trace)) ∧
      ((objectiveRepeats [("k", PyVal.num 2)] "pd"
        [⟨"id0", .ok [("m", PyVal.num 1)]⟩, ⟨"id1", .error "boom"⟩,
          ⟨"id2", .ok [("m", PyVal.num 2)]⟩]).1)[1]? = some [("k", PyVal.num 2)]) :=
  ⟨⟨by decide, by decide⟩,
    failure_containment [("k", PyVal.num 2)] "pd"
      [⟨"id0", .ok [("m", PyVal.num 1)]⟩, ⟨"id1", .error "boom"⟩,
        ⟨"id2", .ok [("m", PyVal.num 2)]⟩] 1 (by decide) (by decide)⟩

/-! ### The weight-splitting line of `run` (C1) -/

theorem splitBySizes_length {α : Type} :
    ∀ (sizes : List ℕ) (l : List α), (splitBySizes sizes l).length = sizes.length := by
  intro sizes
  induction sizes with
  | nil => intro l; rfl
  | cons s rest ih => intro l; simp [splitBySizes, ih]

theorem kfoldSplit_length (n k : ℕ) (perm : List ℕ) :
    (kfoldSplit n k perm).length = k := by
  unfold kfoldSplit kfoldSizes
  rw [List.length_map, splitBySizes_length, List.length_map, List.length_range]

theorem pyWeightsSplit_snd (weights : Option (List (List ℚ))) (tri vali : List ℕ)
    (p : Option (List (List ℚ) × List (List ℚ)) × Option (List (List ℚ)))
    (h : pyWeightsSplit weights tri vali = .ok p) : p.2 = none := by
  unfold pyWeightsSplit at h
  cases ht : ndarrayTruth weights with
  | error e => rw [ht] at h; simp at h
  | ok t =>
    rw [ht] at h
    cases t with
    | false =>
      simp at h
      rw [← h]
    | true =>
      cases weights with
      | none =>
        simp at h
        rw [← h]
      | some ws =>
        simp at h
        rw [← h]

theorem runFoldLoop_wvals {D : Type}
    (f : List D → List D → Option (List (List ℚ) × List (List ℚ)) → Option (List (List ℚ)) → Row)
    (data : List D) (weights : Option (List (List ℚ))) :
    ∀ folds out, runFoldLoop f data weights folds = .ok out → ∀ w ∈ out.2, w = none := by
  intro folds
  induction folds with
  | nil =>
    intro out hok w hw
    simp [runFoldLoop] at hok
    rw [← hok] at hw
    simp at hw
  | cons fv rest ih =>
    intro out hok w hw
    obtain ⟨tri, vali⟩ := fv
    rw [runFoldLoop] at hok
    cases hwp : pyWeightsSplit weights tri vali with
    | error e => rw [hwp] at hok; simp at hok
    | ok wp =>
      rw [hwp] at hok
      cases hrest : runFoldLoop f data weights rest with
      | error e => rw [hrest] at hok; simp at hok
      | ok rr =>
        rw [hrest] at hok
        simp at hok
        rw [← hok] at hw
        simp at hw
        cases hw with
        | inl h => rw [h]; exact pyWeightsSplit_snd weights tri vali wp hwp
        | inr h => exact ih rr hrest w h

/-- C1: a run whose weights input is an array with more than one element
raises the numpy ambiguous-truth-value `ValueError` while splitting the
weights in the first fold iteration — uniformly in the fold-step function, so
no fold step or model fit ever executes; and every execution of the fold loop
that does not raise passes `W_val = None` to `_cv_fold_step` on every fold
(the conditional expression of the weight-splitting line binds only the first
element of the assigned pair). -/
theorem run_weights_behavior {D : Type} (data : List D) (ws : List (List ℚ))
    (params : Row) (nsplits : ℕ) (perm : List ℕ)
    (hk : 2 ≤ nsplits) (hkn : nsplits ≤ data.length) (hws : 1 < elemCount ws) :
    (∀ foldStep, run data (some ws) params nsplits perm foldStep =
      .error ambiguousTruthMsg) ∧
    (∀ (weights : Option (List (List ℚ))) foldStep folds out,
      runFoldLoop foldStep data weights folds = .ok out → ∀ w ∈ out.2, w = none) := by
  constructor
  · intro foldStep
    unfold run
    rw [if_neg (by omega), if_neg (by omega)]
    have hlen : (kfoldSplit data.length nsplits perm).length = nsplits :=
      kfoldSplit_length data.length nsplits perm
    cases hfolds : kfoldSplit data.length nsplits perm with
    | nil => rw [hfolds] at hlen; simp at hlen; omega
    | cons fv rest =>
      obtain ⟨tri, vali⟩ := fv
      have ht : ndarrayTruth (some ws) = .error ambiguousTruthMsg := by
        unfold ndarrayTruth
        simp [hws]
      have hsplit : pyWeightsSplit (some ws) tri vali = .error ambiguousTruthMsg := by
        unfold pyWeightsSplit
        rw [ht]
      have hloop : runFoldLoop foldStep data (some ws) ((tri, vali) :: rest) =
          .error ambiguousTruthMsg := by
        rw [runFoldLoop, hsplit]
      rw [hloop]
  · intro weights foldStep folds out hok
    exact runFoldLoop_wvals foldStep data weights folds out hok

/-- Witness for C1: three samples, a two-element weights array, two splits. -/
theorem run_weights_behavior_witness :
    (2 ≤ 2 ∧ 2 ≤ ([0, 1, 2] : List ℚ).length ∧ 1 < elemCount [[1], [1]]) ∧
    ((∀ foldStep, run ([0, 1, 2] : List ℚ) (some [[1], [1]]) [("k", PyVal.num 2)] 2 [0, 1, 2]
        foldStep = .error ambiguousTruthMsg) ∧
      (∀ (weights : Option (List (List ℚ))) foldStep folds out,
        runFoldLoop foldStep ([0, 1, 2] : List ℚ) weights folds = .ok out →
          ∀ w ∈ out.2, w = none)) :=
  ⟨⟨by decide, by decide, by decide⟩,
    run_weights_behavior [0, 1, 2] [[1], [1]] [("k", PyVal.num 2)] 2 [0, 1, 2]
      (by decide) (by decide) (by decide)⟩

/-! ### Repeat-file regrouping (C5) -/

theorem mem_pyRange_iff (r n len m : ℕ) (hn : 0 < n) (hr : r < n) :
    m ∈ pyRange r len n ↔ m < len ∧ m % n = r := by
  unfold pyRange
  rw [List.mem_range']
  constructor
  · rintro ⟨i, hi, rfl⟩
    have h1 : (i + 1) * n ≤ len - r + n - 1 :=
      (Nat.le_div_iff_mul_le hn).mp (Nat.succ_le_of_lt hi)
    constructor
    · have hsm : (i + 1) * n = i * n + n := Nat.succ_mul i n
      have hcm : n * i = i * n := Nat.mul_comm n i
      omega
    · rw [Nat.add_mul_mod_self_left, Nat.mod_eq_of_lt hr]
  · rintro ⟨hlt, hmod⟩
    have hdm := Nat.div_add_mod m n
    refine ⟨m / n, ?_, ?_⟩
    · rw [Nat.lt_iff_add_one_le, Nat.le_div_iff_mul_le hn]
      have hsm : (m / n + 1) * n = (m / n) * n + n := Nat.succ_mul _ n
      have hcm : n * (m / n) = (m / n) * n := Nat.mul_comm n _
      omega
    · omega

theorem pairwise_lt_pyRange' (step : ℕ) (hstep : 0 < step) :
    ∀ cnt s, (List.range' s cnt step).Pairwise (· < ·) := by
  intro cnt
  induction cnt with
  | zero => intro s; simp
  | succ c ih =>
    intro s
    rw [List.range'_succ]
    refine List.Pairwise.cons ?_ (ih (s + step))
    intro b hb
    rw [List.mem_range'] at hb
    obtain ⟨i, _, rfl⟩ := hb
    have : 0 ≤ step * i := Nat.zero_le _
    omega

theorem pyRange_eq_filter (r n len : ℕ) (hn : 0 < n) (hr : r < n) :
    pyRange r len n = (List.range len).filter (fun j => j % n == r) := by
  have h1 : (pyRange r len n).Pairwise (· < ·) := pairwise_lt_pyRange' n hn _ r
  have h2 : ((List.range len).filter (fun j => j % n == r)).Pairwise (· < ·) :=
    (List.pairwise_lt_range len).filter _
  have hmem : ∀ m, m ∈ pyRange r len n ↔
      m ∈ (List.range len).filter (fun j => j % n == r) := by
    intro m
    rw [mem_pyRange_iff r n len m hn hr, List.mem_filter, List.mem_range]
    simp [beq_iff_eq]
  exact List.eq_of_perm_of_sorted
    ((List.perm_ext_iff_of_nodup (h1.imp ne_of_lt) (h2.imp ne_of_lt)).mpr hmem)
    (h1.imp le_of_lt) (h2.imp le_of_lt)

theorem filterMap_getElem_length {α : Type} (rows : List α) :
    ∀ idx : List ℕ, (∀ j ∈ idx, j < rows.length) →
      (idx.filterMap (fun j => rows[j]?)).length = idx.length := by
  intro idx
  induction idx with
  | nil => intro _; rfl
  | cons j t ih =>
    intro h
    rw [List.filterMap_cons]
    have hj : j < rows.length := h j (by simp)
    rw [List.getElem?_eq_getElem hj]
    simp only [List.length_cons]
    rw [ih (fun x hx => h x (by simp [hx]))]

/-- C5: for a concatenated trial table of `rows` and `n_repeats = n > 0`, the
regrouping step produces exactly `n` repeat files, where repeat file `r` is
exactly the sublist of rows whose index in the table satisfies
`index % n = r`, in the original order and with the original values — and its
length equals the number of such indices, so rows are redistributed without
being recomputed, duplicated, or dropped. -/
theorem gen_repeats_files_spec (rows : List Row) (n : ℕ) (hn : 0 < n) :
    (gen_repeats_files rows n).length = n ∧
    ∀ r, r < n →
      (gen_repeats_files rows n)[r]? =
        some (((List.range rows.length).filter (fun j => j % n == r)).filterMap
          (fun j => rows[j]?)) ∧
      (((List.range rows.length).filter (fun j => j % n == r)).filterMap
          (fun j => rows[j]?)).length =
        ((List.range rows.length).filter (fun j => j % n == r)).length := by
  refine ⟨by simp [gen_repeats_files], ?_⟩
  intro r hr
  constructor
  · unfold gen_repeats_files
    rw [List.getElem?_map, List.getElem?_range hr]
    simp only [Option.map_some']
    rw [pyRange_eq_filter r n rows.length hn hr]
  · exact filterMap_getElem_length rows _
      (fun j hj => List.mem_range.mp (List.mem_filter.mp hj).1)

/-- Witness for C5: ten rows with five repeats; file 2 holds rows 2 and 7. -/
theorem gen_repeats_files_spec_witness :
    0 < 5 ∧
    ((gen_repeats_files (List.range 10 |>.map (fun i => [("m", PyVal.num i)])) 5).length = 5 ∧
      ∀ r, r < 5 →
        (gen_repeats_files (List.range 10 |>.map (fun i => [("m", PyVal.num i)])) 5)[r]? =
          some (((List.range (List.range 10 |>.map
              (fun i => [("m", PyVal.num i)])).length).filter (fun j => j % 5 == r)).filterMap
            (fun j => (List.range 10 |>.map (fun i => [("m", PyVal.num i)]))[j]?)) ∧
        (((List.range (List.range 10 |>.map
            (fun i => [("m", PyVal.num i)])).length).filter (fun j => j % 5 == r)).filterMap
          (fun j => (List.range 10 |>.map (fun i => [("m", PyVal.num i)]))[j]?)).length =
          ((List.range (List.range 10 |>.map
            (fun i => [("m", PyVal.num i)])).length).filter (fun j => j % 5 == r)).length) :=
  ⟨by decide,
    gen_repeats_files_spec (List.range 10 |>.map (fun i => [("m", PyVal.num i)])) 5
      (by decide)⟩

/-! ### K-fold split invariants (C7) -/

theorem take_add_append {α : Type} :
    ∀ (l : List α) (m n : ℕ), l.take (m + n) = l.take m ++ (l.drop m).take n := by
  intro l
  induction l with
  | nil => intro m n; simp
  | cons x xs ih =>
    intro m n
    cases m with
    | zero => simp
    | succ m =>
      rw [Nat.succ_add, List.take_succ_cons, List.take_succ_cons, List.drop_succ_cons,
        List.cons_append, ih]

theorem splitBySizes_flatten {α : Type} :
    ∀ (sizes : List ℕ) (l : List α), (splitBySizes sizes l).flatten = l.take sizes.sum := by
  intro sizes
  induction sizes with
  | nil => intro l; simp [splitBySizes]
  | cons s rest ih =>
    intro l
    rw [splitBySizes, List.flatten_cons, ih, List.sum_cons, take_add_append]

theorem sum_range_map_if (q t : ℕ) :
    ∀ c, ((List.range c).map (fun i => if i < t then q + 1 else q)).sum = c * q + min t c := by
  intro c
  induction c with
  | zero => simp
  | succ c ih =>
    rw [List.range_succ, List.map_append, List.sum_append, ih]
    by_cases hc : c < t
    · rw [List.map_singleton, List.sum_singleton, if_pos hc]
      have h1 : min t c = c := by omega
      have h2 : min t (c + 1) = c + 1 := by omega
      rw [h1, h2, Nat.succ_mul]
      omega
    · rw [List.map_singleton, List.sum_singleton, if_neg hc]
      have h1 : min t c = t := by omega
      have h2 : min t (c + 1) = t := by omega
      rw [h1, h2, Nat.succ_mul]
      omega

theorem kfoldSizes_sum (n k : ℕ) (hk : 0 < k) : (kfoldSizes n k).sum = n := by
  unfold kfoldSizes
  rw [sum_range_map_if]
  have h1 : min (n % k) k = n % k := by
    have := Nat.mod_lt n hk
    omega
  rw [h1]
  exact Nat.div_add_mod n k

theorem countP_sum_one : ∀ l : List ℕ, l.sum = 1 → l.countP (fun m => decide (0 < m)) = 1 := by
  have hzero : ∀ l : List ℕ, l.sum = 0 → l.countP (fun m => decide (0 < m)) = 0 := by
    intro l
    induction l with
    | nil => intro _; rfl
    | cons a t ih =>
      intro h
      rw [List.sum_cons] at h
      rw [List.countP_cons]
      have ha : a = 0 := by omega
      rw [ih (by omega), ha]
      simp
  intro l
  induction l with
  | nil => intro h; simp at h
  | cons a t ih =>
    intro h
    rw [List.sum_cons] at h
    rw [List.countP_cons]
    by_cases ha : a = 0
    · rw [ih (by omega), ha]
      simp
    · have hsum : t.sum = 0 := by omega
      rw [hzero t hsum]
      have : (0 : ℕ) < a := by omega
      simp [this]

/-- C7: the seeded K-fold split used by `run` (scikit-learn `KFold` modelled
by `kfoldSplit` over any shuffle permutation of the indices) yields exactly
`n_splits` folds whose train and validation index sets are disjoint and whose
union per fold is the full index set, and each sample index belongs to the
validation set of exactly one fold: the validation sets partition the
indices. -/
theorem kfold_partition (n k : ℕ) (perm : List ℕ) (hperm : perm.Perm (List.range n))
    (hk : 2 ≤ k) (_hkn : k ≤ n) :
    (kfoldSplit n k perm).length = k ∧
    (∀ f ∈ kfoldSplit n k perm,
      (∀ x ∈ f.1, x ∉ f.2) ∧ (∀ x, (x ∈ f.1 ∨ x ∈ f.2) ↔ x < n)) ∧
    (∀ x, x < n → (kfoldSplit n k perm).countP (fun f => decide (x ∈ f.2)) = 1) := by
  have hk0 : 0 < k := by omega
  have hlenperm : perm.length = n := by
    rw [hperm.length_eq, List.length_range]
  have hflat : (splitBySizes (kfoldSizes n k) perm).flatten = perm := by
    rw [splitBySizes_flatten, kfoldSizes_sum n k hk0, ← hlenperm, List.take_length]
  have hvalmem : ∀ v ∈ splitBySizes (kfoldSizes n k) perm, ∀ x ∈ v, x < n := by
    intro v hv x hx
    have : x ∈ (splitBySizes (kfoldSizes n k) perm).flatten :=
      List.mem_flatten.mpr ⟨v, hv, hx⟩
    rw [hflat] at this
    exact List.mem_range.mp (hperm.mem_iff.mp this)
  refine ⟨kfoldSplit_length n k perm, ?_, ?_⟩
  · intro f hf
    unfold kfoldSplit at hf
    obtain ⟨v, hv, rfl⟩ := List.mem_map.mp hf
    constructor
    · intro x hx
      have := (List.mem_filter.mp hx).2
      simp at this
      simpa using this
    · intro x
      constructor
      · rintro (hx | hx)
        · exact List.mem_range.mp (List.mem_filter.mp hx).1
        · exact hvalmem v hv x hx
      · intro hx
        by_cases hxv : x ∈ v
        · exact Or.inr hxv
        · refine Or.inl (List.mem_filter.mpr ⟨List.mem_range.mpr hx, ?_⟩)
          simpa using hxv
  · intro x hx
    unfold kfoldSplit
    rw [List.countP_map]
    have hcount : ((splitBySizes (kfoldSizes n k) perm).map (List.count x)).sum = 1 := by
      rw [← List.count_flatten, hflat]
      have hnd : perm.Nodup := hperm.nodup_iff.mpr (List.nodup_range n)
      have hmem : x ∈ perm := hperm.mem_iff.mpr (List.mem_range.mpr hx)
      exact List.count_eq_one_of_mem hnd hmem
    have h1 := countP_sum_one _ hcount
    rw [List.countP_map] at h1
    rw [← h1]
    apply List.countP_congr
    intro v _
    simp [Function.comp, List.count_pos_iff]

/-- Witness for C7: four samples, two folds, shuffle permutation
[2, 0, 3, 1]. -/
theorem kfold_partition_witness :
    (([2, 0, 3, 1] : List ℕ).Perm (List.range 4) ∧ 2 ≤ 2 ∧ 2 ≤ 4) ∧
    ((kfoldSplit 4 2 [2, 0, 3, 1]).length = 2 ∧
      (∀ f ∈ kfoldSplit 4 2 [2, 0, 3, 1],
        (∀ x ∈ f.1, x ∉ f.2) ∧ (∀ x, (x ∈ f.1 ∨ x ∈ f.2) ↔ x < 4)) ∧
      (∀ x, x < 4 → (kfoldSplit 4 2 [2, 0, 3, 1]).countP (fun f => decide (x ∈ f.2)) = 1)) :=
  ⟨⟨by decide, by decide, by decide⟩,
    kfold_partition 4 2 [2, 0, 3, 1] (by decide) (by decide) (by decide)⟩

/-! ### Job Result reduction in `run` (C8) -/

theorem runFoldLoop_none {D : Type}
    (f : List D → List D → Option (List (List ℚ) × List (List ℚ)) → Option (List (List ℚ)) → Row)
    (data : List D) :
    ∀ folds, runFoldLoop f data none folds =
      .ok (folds.map (fun fv => f (idxSelect data fv.1) (idxSelect data fv.2) none none),
        folds.map (fun _ => none)) := by
  intro folds
  induction folds with
  | nil => rfl
  | cons fv rest ih =>
    obtain ⟨tri, vali⟩ := fv
    rw [runFoldLoop]
    have hsplit : pyWeightsSplit none tri vali = .ok (none, none) := rfl
    rw [hsplit, ih]
    simp

theorem rowGet_mapRow (v : String → ℚ) (m : String) :
    ∀ names : List String, m ∈ names →
      rowGet (names.map (fun m2 => (m2, PyVal.num (v m2)))) m = some (.num (v m)) := by
  intro names
  induction names with
  | nil => intro h; simp at h
  | cons a t ih =>
    intro hm
    by_cases ham : a = m
    · subst ham
      simp [rowGet, List.find?_cons]
    · have hmt : m ∈ t := by
        cases List.mem_cons.mp hm with
        | inl h => exact absurd h.symm ham
        | inr h => exact h
      have hne : (a == m) = false := by simp [ham]
      unfold rowGet at ih ⊢
      rw [List.map_cons, List.find?_cons]
      simp only [hne]
      exact ih hmt

theorem filter_comm_dkf (p q : String → Bool) (l : List String) :
    (l.filter p).filter q = (l.filter q).filter p := by
  rw [List.filter_filter, List.filter_filter]
  apply List.filter_congr
  intro x _
  rw [Bool.and_comm]

theorem dedupKeepFirst_filter (p : String → Bool) :
    ∀ l, (dedupKeepFirst l).filter p = dedupKeepFirst (l.filter p) := by
  intro l
  induction l with
  | nil => rfl
  | cons c rest ih =>
    rw [dedupKeepFirst, List.filter_cons]
    by_cases hp : p c
    · rw [if_pos hp, List.filter_cons, if_pos hp, dedupKeepFirst, ← ih, filter_comm_dkf]
    · rw [if_neg (by simpa using hp), List.filter_cons, if_neg (by simpa using hp),
        filter_comm_dkf, ih]
      apply List.filter_eq_self.mpr
      intro x hx
      have hxr : x ∈ rest.filter p := (mem_dedupKeepFirst x _).mp hx
      have hxc : x ≠ c := by
        intro hxc
        subst hxc
        exact hp (List.of_mem_filter hxr)
      simpa using hxc

theorem dedupKeepFirst_append_subset :
    ∀ (names T : List String), names.Nodup → (∀ c ∈ T, c ∈ names) →
      dedupKeepFirst (names ++ T) = names := by
  intro names
  induction names with
  | nil =>
    intro T _ hT
    cases T with
    | nil => rfl
    | cons c rest => exact absurd (hT c (by simp)) (by simp)
  | cons a t ih =>
    intro T hnd hT
    rw [List.cons_append, dedupKeepFirst, dedupKeepFirst_filter]
    have hta : t.filter (fun d => d != a) = t := by
      apply List.filter_eq_self.mpr
      intro x hx
      have : x ≠ a := by
        intro hxa
        subst hxa
        exact (List.nodup_cons.mp hnd).1 hx
      simpa using this
    rw [List.filter_append, hta]
    rw [ih (T.filter (fun d => d != a)) (List.nodup_cons.mp hnd).2]
    intro c hc
    obtain ⟨hcT, hca⟩ := List.mem_filter.mp hc
    have := hT c hcT
    cases List.mem_cons.mp this with
    | inl h => simp [h] at hca
    | inr h => exact h

theorem dfColumns_uniform (names : List String) (hnd : names.Nodup)
    (vals : List (String → ℚ)) (hne : vals ≠ []) :
    dfColumns (vals.map (fun v => names.map (fun m => (m, PyVal.num (v m))))) = names := by
  have hkeys : ∀ w : String → ℚ,
      (names.map (fun m => (m, PyVal.num (w m)))).map Prod.fst = names := by
    intro w
    rw [List.map_map]
    simp [Function.comp_def]
  cases vals with
  | nil => exact absurd rfl hne
  | cons v vt =>
    unfold dfColumns
    rw [List.map_cons, List.map_cons, List.flatten_cons, hkeys v]
    apply dedupKeepFirst_append_subset names _ hnd
    intro c hc
    rw [List.mem_flatten] at hc
    obtain ⟨l, hl, hcl⟩ := hc
    rw [List.mem_map] at hl
    obtain ⟨r, hr, rfl⟩ := hl
    rw [List.mem_map] at hr
    obtain ⟨w, _, rfl⟩ := hr
    rw [hkeys w] at hcl
    exact hcl

theorem colValues_uniform (names : List String) (m : String) (hm : m ∈ names) :
    ∀ vals : List (String → ℚ),
      colValues (vals.map (fun v => names.map (fun m2 => (m2, PyVal.num (v m2))))) m =
        vals.map (fun v => v m) := by
  intro vals
  induction vals with
  | nil => rfl
  | cons v vt ih =>
    unfold colValues at ih ⊢
    rw [List.map_cons, List.filterMap_cons, rowGet_mapRow v m names hm]
    exact congrArg (List.cons (v m)) ih

theorem dfMean_uniform (names : List String) (hnd : names.Nodup)
    (vals : List (String → ℚ)) (hne : vals ≠ []) :
    dfMean (vals.map (fun v => names.map (fun m => (m, PyVal.num (v m))))) =
      names.map (fun m => (m, some (npMean (vals.map (fun v => v m))))) := by
  unfold dfMean
  rw [dfColumns_uniform names hnd vals hne]
  apply List.map_congr_left
  intro m hm
  rw [colValues_uniform names m hm vals]
  unfold pdMean npMean
  have hempty : (vals.map (fun v => v m)).isEmpty = false := by
    cases vals with
    | nil => exact absurd rfl hne
    | cons v vt => rfl
  rw [hempty]
  simp

/-- C8: for a `run` over `n_splits` folds whose fold step produces, for a
fixed list of metric names, one numeric value per metric (as
`FullOptimizationJob._cv_fold_step` does), the returned Job Result row is the
hyperparameter configuration entries followed by, for each metric name, the
arithmetic mean of that metric over the `n_splits` fold results. Stated for a
weights input of `None` (any multi-sample weights array would raise, `C1`). -/
theorem run_mean_reduction {D : Type} (data : List D) (params : Row) (nsplits : ℕ)
    (perm : List ℕ) (names : List String) (hnd : names.Nodup)
    (g : List D → List D → Option (List (List ℚ) × List (List ℚ)) →
      Option (List (List ℚ)) → String → ℚ)
    (foldStep : List D → List D → Option (List (List ℚ) × List (List ℚ)) →
      Option (List (List ℚ)) → Row)
    (hstep : ∀ a b c d, foldStep a b c d = names.map (fun m => (m, PyVal.num (g a b c d m))))
    (hk : 2 ≤ nsplits) (hkn : nsplits ≤ data.length) :
    run data none params nsplits perm foldStep =
      .ok (params ++ names.map (fun m => (m, PyVal.num (npMean
        ((kfoldSplit data.length nsplits perm).map (fun fv =>
          g (idxSelect data fv.1) (idxSelect data fv.2) none none m)))))) := by
  have hrun : run data none params nsplits perm foldStep =
      .ok (params ++ (dfMean ((kfoldSplit data.length nsplits perm).map
          (fun fv => foldStep (idxSelect data fv.1) (idxSelect data fv.2) none none))).map
        (fun p => (p.1, match p.2 with | some q => PyVal.num q | none => PyVal.nan))) := by
    unfold run
    rw [if_neg (by omega), if_neg (by omega), runFoldLoop_none]
  rw [hrun]
  have hrows : (kfoldSplit data.length nsplits perm).map
      (fun fv => foldStep (idxSelect data fv.1) (idxSelect data fv.2) none none) =
      ((kfoldSplit data.length nsplits perm).map
        (fun fv => g (idxSelect data fv.1) (idxSelect data fv.2) none none)).map
        (fun v => names.map (fun m => (m, PyVal.num (v m)))) := by
    rw [List.map_map]
    apply List.map_congr_left
    intro fv _
    exact hstep _ _ _ _
  have hvne : (kfoldSplit data.length nsplits perm).map
      (fun fv => g (idxSelect data fv.1) (idxSelect data fv.2) none none) ≠ [] := by
    intro habs
    have := congrArg List.length habs
    rw [List.length_map, kfoldSplit_length] at this
    simp at this
    omega
  rw [hrows, dfMean_uniform names hnd _ hvne, List.map_map]
  simp only [List.map_map]
  rfl

/-- Witness for C8: four one-dimensional samples, two folds, two metrics
(validation-fold length and a constant). -/
theorem run_mean_reduction_witness :
    (( ["m1", "m2"] : List String).Nodup ∧ 2 ≤ 2 ∧ 2 ≤ ([10, 20, 30, 40] : List ℚ).length ∧
      (∀ (a b : List ℚ) (c : Option (List (List ℚ) × List (List ℚ)))
          (d : Option (List (List ℚ))),
        (fun (_ b2 : List ℚ) (_ : Option (List (List ℚ) × List (List ℚ)))
            (_ : Option (List (List ℚ))) =>
          [("m1", PyVal.num b2.length), ("m2", PyVal.num 3)]) a b c d =
          (["m1", "m2"] : List String).map (fun m =>
            (m, PyVal.num ((fun (_ : List ℚ) (b2 : List ℚ)
                (_ : Option (List (List ℚ) × List (List ℚ)))
                (_ : Option (List (List ℚ))) (m2 : String) =>
              if m2 = "m1" then (b2.length : ℚ) else 3) a b c d m))))) ∧
    run ([10, 20, 30, 40] : List ℚ) none [("k", PyVal.num 2)] 2 [2, 0, 3, 1]
        (fun (_ b2 : List ℚ) (_ : Option (List (List ℚ) × List (List ℚ)))
          (_ : Option (List (List ℚ))) =>
          [("m1", PyVal.num b2.length), ("m2", PyVal.num 3)]) =
      .ok ([("k", PyVal.num 2)] ++ (["m1", "m2"] : List String).map (fun m =>
        (m, PyVal.num (npMean
          ((kfoldSplit ([10, 20, 30, 40] : List ℚ).length 2 [2, 0, 3, 1]).map (fun fv =>
            (fun (_ : List ℚ) (b2 : List ℚ)
                (_ : Option (List (List ℚ) × List (List ℚ)))
                (_ : Option (List (List ℚ))) (m2 : String) =>
              if m2 = "m1" then (b2.length : ℚ) else 3)
              (idxSelect ([10, 20, 30, 40] : List ℚ) fv.1)
              (idxSelect ([10, 20, 30, 40] : List ℚ) fv.2) none none m)))))) :=
  ⟨⟨by decide, by decide, by decide, fun a b c d => rfl⟩,
    run_mean_reduction [10, 20, 30, 40] [("k", PyVal.num 2)] 2 [2, 0, 3, 1] ["m1", "m2"]
      (by decide)
      (fun (_ : List ℚ) (b2 : List ℚ) (_ : Option (List (List ℚ) × List (List ℚ)))
        (_ : Option (List (List ℚ))) (m2 : String) =>
        if m2 = "m1" then (b2.length : ℚ) else 3)
      (fun (_ b2 : List ℚ) (_ : Option (List (List ℚ) × List (List ℚ)))
        (_ : Option (List (List ℚ))) =>
        [("m1", PyVal.num b2.length), ("m2", PyVal.num 3)])
      (fun a b c d => rfl) (by decide) (by decide)⟩

end VaDER
